import Mathlib

set_option maxRecDepth 100000

/-!
A shallow embedding of the FDD (Franchise Disclosure Document) section
analysis core of this repository: `fdd_section_analyzer.py`
(`analyze_fdd_sections`, `_fuzzy_match_header`, `_enhanced_fuzzy_match`,
`validate_sections`, `_analyze_document_structure`) and
`fdd_document_organizer.py` (`_get_sorted_texts`).

Strings are modelled as `List Char`; Python ints as `Int`/`Nat`; the
floating point layout coordinates as `ℚ` (only their ordering matters);
JSON dictionaries with optional keys as structures of `Option` fields.
The similarity functions of the third-party `thefuzz` library are
modelled from their documented behaviour: `fuzz.ratio` is the indel
(longest-common-subsequence based) normalized similarity scaled to 0-100,
`fuzz.partial_token_sort_ratio` tokenizes both strings on
non-alphanumeric characters, sorts the tokens, rejoins them with single
spaces and takes the best `ratio` of the shorter string against the
sliding windows (of the shorter string's length) of the longer one.
Scores are kept as exact rationals; the Python library rounds to ints,
which can only matter within 1 of the acceptance thresholds, and every
concrete input used below keeps a wide margin from the thresholds.
-/

/-- ASCII uppercase of one character, as Python `str.upper` acts on ASCII. -/
def asciiUpper (c : Char) : Char :=
  if c.toNat ≥ 97 ∧ c.toNat ≤ 122 then Char.ofNat (c.toNat - 32) else c

/-- ASCII lowercase of one character, as Python `str.lower` acts on ASCII. -/
def asciiLower (c : Char) : Char :=
  if c.toNat ≥ 65 ∧ c.toNat ≤ 90 then Char.ofNat (c.toNat + 32) else c

/-- Uppercase a whole string (`text.upper()`). -/
def upperL (s : List Char) : List Char := s.map asciiUpper

/-- Lowercase a whole string (`text.lower()`). -/
def lowerL (s : List Char) : List Char := s.map asciiLower

/-- Decimal digit. -/
def isDigitChar (c : Char) : Bool := 48 ≤ c.toNat ∧ c.toNat ≤ 57

/-- ASCII letter or digit (Python `str.isalnum` restricted to ASCII). -/
def isAlnumChar (c : Char) : Bool :=
  isDigitChar c ∨ (65 ≤ c.toNat ∧ c.toNat ≤ 90) ∨ (97 ≤ c.toNat ∧ c.toNat ≤ 122)

/-- Regex word character `\w` (ASCII): letter, digit or underscore. -/
def isWordChar (c : Char) : Bool := isAlnumChar c ∨ c = Char.ofNat 95

/-- Regex whitespace `\s` (ASCII): space, tab, newline, CR, VT, FF. -/
def isSpaceChar (c : Char) : Bool :=
  c = ' ' ∨ c.toNat = 9 ∨ c.toNat = 10 ∨ c.toNat = 13 ∨ c.toNat = 11 ∨ c.toNat = 12

/-- Decimal digits of a natural number, most significant first
(fuel-based recursion; the fuel `n + 1` always suffices). -/
def natToCharsAux : Nat → Nat → List Char
  | 0, _ => []
  | fuel + 1, n =>
    if n < 10 then [Char.ofNat (48 + n)]
    else natToCharsAux fuel (n / 10) ++ [Char.ofNat (48 + n % 10)]

/-- Decimal representation of a natural number (Python `str(item_num)`). -/
def natToChars (n : Nat) : List Char := natToCharsAux (n + 1) n

/-- Does `s` start with `pre`? (compared by `take`, used for substring scans). -/
def startsWithL (pre s : List Char) : Bool := s.take pre.length = pre

/-- Python `needle in hay`: `needle` occurs as a contiguous substring. -/
def infixOfL : List Char → List Char → Bool
  | needle, [] => needle.isEmpty
  | needle, c :: rest => startsWithL needle (c :: rest) || infixOfL needle rest

/-- One row-update step of the longest-common-subsequence dynamic program:
`prev` is the previous row (starting at column j), `left` the value just
computed in the current row; produces the current row from column j+1 on. -/
def lcsGo (x : Char) : List Char → List Nat → Nat → List Nat
  | [], _, _ => []
  | y :: ys, prev, left =>
    let diag := prev.headD 0
    let up := prev.tail.headD 0
    let cur := if x = y then diag + 1 else max left up
    cur :: lcsGo x ys prev.tail cur

/-- Length of a longest common subsequence of two strings (row dynamic
program; the row has `ys.length + 1` entries, index j = LCS with the
first j characters of `ys`). -/
def lcsLen (xs ys : List Char) : Nat :=
  (xs.foldl (fun prev x => 0 :: lcsGo x ys prev 0) (List.replicate (ys.length + 1) 0)).getLastD 0

/-- An unreduced non-negative fraction. Similarity scores are exact
rationals in 0..100; we keep numerator and denominator separate and
compare by cross-multiplication, so that every score computation is
kernel-reducible (the denominator is always positive). -/
structure Frac where
  num : Nat
  den : Nat
deriving DecidableEq

/-- Strict comparison of fractions by cross-multiplication. -/
def fracLT (a b : Frac) : Bool := a.num * b.den < b.num * a.den

/-- The larger of two fractions (as Python `max` on the score values). -/
def fracMax (a b : Frac) : Frac := if fracLT a b then b else a

/-- Product of two fractions. -/
def fracMul (a b : Frac) : Frac := ⟨a.num * b.num, a.den * b.den⟩

/-- Sum of two fractions. -/
def fracAdd (a b : Frac) : Frac := ⟨a.num * b.den + b.num * a.den, a.den * b.den⟩

/-- The rational value of a fraction. -/
def fracVal (a : Frac) : ℚ := (a.num : ℚ) / (a.den : ℚ)

/-- Model of `thefuzz` `fuzz.ratio`: indel similarity scaled to 0-100,
i.e. `200 * lcs / (len a + len b)` (two equal strings score 100). -/
def simScore (a b : List Char) : Frac :=
  if a.length + b.length = 0 then ⟨100, 1⟩
  else ⟨200 * lcsLen a b, a.length + b.length⟩

/-- All contiguous windows of length `k` of a string, left to right. -/
def slidingWindows (k : Nat) : List Char → List (List Char)
  | [] => if k = 0 then [[]] else []
  | c :: rest =>
    if rest.length + 1 < k then []
    else ((c :: rest).take k) :: slidingWindows k rest

/-- Model of `thefuzz` `fuzz.partial_ratio`: best `simScore` of the
shorter string against same-length windows of the longer string. -/
def windowScore (a b : List Char) : Frac :=
  let s := if a.length ≤ b.length then a else b
  let l := if a.length ≤ b.length then b else a
  if s.isEmpty then (if l.isEmpty then ⟨100, 1⟩ else ⟨0, 1⟩)
  else ((slidingWindows s.length l).map (simScore s)).foldl fracMax ⟨0, 1⟩

/-- Split on non-alphanumeric characters, dropping empty pieces
(the tokenization step of `full_process` in `thefuzz`). -/
def splitTokensAux : List Char → List Char → List (List Char)
  | acc, [] => if acc.isEmpty then [] else [acc.reverse]
  | acc, c :: rest =>
    if isAlnumChar c then splitTokensAux (c :: acc) rest
    else if acc.isEmpty then splitTokensAux [] rest
    else acc.reverse :: splitTokensAux [] rest

/-- Tokens of a string after case folding (uppercase here; `thefuzz`
lowercases, but tokens all end up in a single case either way and the
relative order of same-case letters and digits is the same). -/
def processTokens (s : List Char) : List (List Char) := splitTokensAux [] (upperL s)

/-- Lexicographic comparison of tokens by character code
(Python `sorted` on strings). -/
def tokLE : List Char → List Char → Bool
  | [], _ => true
  | _ :: _, [] => false
  | x :: xs, y :: ys => if x = y then tokLE xs ys else decide (x.toNat < y.toNat)

/-- Case-fold, tokenize, sort the tokens and rejoin with single spaces
(the `full_process` + token-sort step of `fuzz.partial_token_sort_ratio`). -/
def sortJoin (s : List Char) : List Char :=
  List.intercalate [' '] ((processTokens s).insertionSort (fun a b => tokLE a b = true))

/-- Model of `thefuzz` `fuzz.partial_token_sort_ratio`. -/
def tokenSortWindowScore (a b : List Char) : Frac :=
  windowScore (sortJoin a) (sortJoin b)


/-- Match of literal digits followed by a regex word boundary `\b`:
the digit string occurs here and the next character (if any) is not a
word character. -/
def numWithBoundary (digits s : List Char) : Bool :=
  startsWithL digits s &&
    (match s.drop digits.length with
     | [] => true
     | c :: _ => !isWordChar c)

/-- Match of `\s+` followed by the given digits and a `\b` boundary,
starting at the current position (at least one whitespace character). -/
def wsThenNum (digits : List Char) : List Char → Bool
  | [] => false
  | c :: rest => isSpaceChar c && (numWithBoundary digits rest || wsThenNum digits rest)

/-- Match of the analyzer's exact-pass pattern `ITEM\s+<n>\b` at the
current position (the input is already uppercased). -/
def itemAtPos (digits s : List Char) : Bool :=
  startsWithL "ITEM".data s && wsThenNum digits (s.drop 4)

/-- Unanchored regex search: does `p` hold at some suffix? -/
def anySuffix (p : List Char → Bool) : List Char → Bool
  | [] => p []
  | c :: rest => p (c :: rest) || anySuffix p rest

/-- The exact-pass check of `analyze_fdd_sections`:
`re.search(rf"ITEM\s+{item_num}\b", text, re.IGNORECASE)`. -/
def itemExactMatch (n : Nat) (text : List Char) : Bool :=
  anySuffix (itemAtPos (natToChars n)) (upperL text)

/-- Helper for the validator's `re.search(rf"\b{item_num}\b", text)`:
scan all positions while tracking whether the previous character is a
word character (the `\b` before the digits). -/
def standaloneNumGo (digits : List Char) : Bool → List Char → Bool
  | prevWord, [] => !prevWord && numWithBoundary digits []
  | prevWord, c :: rest =>
    (!prevWord && numWithBoundary digits (c :: rest)) ||
      standaloneNumGo digits (isWordChar c) rest

/-- The validator's header-format check: the item number appears as a
standalone token (`\b<n>\b`) somewhere in the header text. -/
def standaloneNum (n : Nat) (text : List Char) : Bool :=
  standaloneNumGo (natToChars n) false text

/-- Read a maximal run of leading decimal digits (regex `\d+` capture). -/
def readNumGo : List Char → Nat → Nat
  | [], acc => acc
  | c :: rest, acc =>
    if isDigitChar c then readNumGo rest (acc * 10 + (c.toNat - 48)) else acc

/-- The number captured by `(\d+)` at the current position, if a digit
starts here. -/
def digitsRunNum : List Char → Option Nat
  | [] => none
  | c :: rest => if isDigitChar c then some (readNumGo (c :: rest) 0) else none

/-- Skip `\s*` and then read a `(\d+)` capture. -/
def wsStarThenDigits : List Char → Option Nat
  | [] => none
  | c :: rest => if isSpaceChar c then wsStarThenDigits rest else digitsRunNum (c :: rest)

/-- Match `<kw>\s+(\d+)` at the current position and return the capture. -/
def kwNumAt (kw s : List Char) : Option Nat :=
  if startsWithL kw s then
    match s.drop kw.length with
    | [] => none
    | c :: rest => if isSpaceChar c then wsStarThenDigits (c :: rest) else none
  else none

/-- Leftmost match of `<kw>\s+(\d+)` in the string (Python `re.search`
returns the first match; the captured number of that first match). -/
def scanKwNum (kw : List Char) : List Char → Option Nat
  | [] => none
  | c :: rest =>
    match kwNumAt kw (c :: rest) with
    | some n => some n
    | none => scanKwNum kw rest

/-- Helper for `^\s*(\d+)\.`: after the digits, a literal dot must follow. -/
def lnDotAfter : List Char → Nat → Option Nat
  | [], _ => none
  | c :: rest, acc =>
    if isDigitChar c then lnDotAfter rest (acc * 10 + (c.toNat - 48))
    else if c = '.' then some acc else none

/-- Match of the `numbered` pattern `^\s*(\d+)\.` (anchored at the start
of the string, since `re.MULTILINE` is not used). -/
def lnDotGo : List Char → Option Nat
  | [] => none
  | c :: rest =>
    if isSpaceChar c then lnDotGo rest
    else if isDigitChar c then lnDotAfter (c :: rest) 0
    else none

/-- Is the captured number in the canonical range 1..23? -/
def inRange23 : Option Nat → Bool
  | some n => 1 ≤ n && n ≤ 23
  | none => false

/-- In `_analyze_document_structure`, a text reaches the provenance
access of the item-location branch iff one of the `standard`, `section`
or `numbered` patterns has a first match whose number is in 1..23.
The `roman` pattern never reaches it: `int()` on the roman capture
raises `ValueError`, which the source catches with `continue`. -/
def structurePatternHit (raw : List Char) : Bool :=
  inRange23 (scanKwNum "ITEM".data (upperL raw)) ||
    inRange23 (scanKwNum "SECTION".data (upperL raw)) ||
    inRange23 (lnDotGo raw)

/-- In `_analyze_document_structure`, a text reaches the provenance
access of the special-sections branch iff its lowercased content
contains one of the `SPECIAL_SECTIONS` keywords. -/
def specialKeywordHit (lc : List Char) : Bool :=
  infixOfL "contents".data lc || infixOfL "table of contents".data lc ||
    infixOfL "exhibit".data lc || infixOfL "appendix".data lc ||
    infixOfL "index".data lc || infixOfL "table of".data lc


/-- Bounding box of a provenance record (`bbox`), with optional
`t` (top) and `l` (left) coordinates. -/
structure BBoxRec where
  t : Option ℚ
  l : Option ℚ
deriving DecidableEq

/-- One provenance record of a Docling text (`prov[0]`), with optional
`page_no` and `bbox` keys. -/
structure ProvRec where
  page_no : Option Int
  bbox : Option BBoxRec
deriving DecidableEq

/-- One Docling text object, with the optional keys the analysis reads.
`prov = none` models an absent `prov` key; `prov = some []` models a
present but empty `prov` list (subscripting it raises `IndexError`). -/
structure TextItem where
  text : Option (List Char)
  label : Option (List Char)
  prov : Option (List ProvRec)
  self_ref : Option (List Char)
deriving DecidableEq

/-- The loaded Docling document: the `texts` collection. -/
structure Document where
  texts : List TextItem
deriving DecidableEq

/-- A header page value: the analyzer defaults a missing `page_no` to
the empty string (`.get("page_no", "")`), so the field is an Int or
that string sentinel. -/
inductive PageVal
  | int : Int → PageVal
  | emptyStr : PageVal
deriving DecidableEq

/-- Match classification of a section entry. -/
inductive MatchType
  | EXACT
  | FUZZY
  | MISSING
deriving DecidableEq

/-- One tuple of the Section Map produced by `analyze_fdd_sections`:
`(item_num, text, page_no, found, match_type)`. -/
structure SectionEntry where
  item : Nat
  text : List Char
  page : PageVal
  found : Bool
  mtype : MatchType
deriving DecidableEq

/-- A collected header candidate (first pass of `analyze_fdd_sections`). -/
structure HeaderCand where
  text : List Char
  page : PageVal
  self_ref : List Char
deriving DecidableEq

/-- The apostrophe character (single quote), used in two of the
canonical titles. -/
def apostChar : Char := Char.ofNat 39

/-- The canonical FDD item titles (`FDD_ITEMS`); the table is only ever
read at keys 1..23. -/
def fddItems : Nat → List Char
  | 1 => "THE FRANCHISOR, AND ANY PARENTS, PREDECESSORS AND AFFILIATES".data
  | 2 => "BUSINESS EXPERIENCE".data
  | 3 => "LITIGATION".data
  | 4 => "BANKRUPTCY".data
  | 5 => "INITIAL FEES".data
  | 6 => "OTHER FEES".data
  | 7 => "ESTIMATED INITIAL INVESTMENT".data
  | 8 => "RESTRICTIONS ON SOURCES OF PRODUCTS AND SERVICES".data
  | 9 => "FRANCHISEE".data ++ [apostChar] ++ "S OBLIGATIONS".data
  | 10 => "FINANCING".data
  | 11 => "FRANCHISOR".data ++ [apostChar] ++
      "S ASSISTANCE, ADVERTISING, COMPUTER SYSTEMS AND TRAINING".data
  | 12 => "TERRITORY".data
  | 13 => "TRADEMARKS".data
  | 14 => "PATENTS, COPYRIGHTS AND PROPRIETARY INFORMATION".data
  | 15 => "OBLIGATION TO PARTICIPATE IN THE ACTUAL OPERATION OF THE FRANCHISE BUSINESS".data
  | 16 => "RESTRICTIONS ON WHAT THE FRANCHISEE MAY SELL".data
  | 17 => "RENEWAL, TERMINATION, TRANSFER AND DISPUTE RESOLUTION".data
  | 18 => "PUBLIC FIGURES".data
  | 19 => "FINANCIAL PERFORMANCE REPRESENTATIONS".data
  | 20 => "OUTLETS AND FRANCHISEE INFORMATION".data
  | 21 => "FINANCIAL STATEMENTS".data
  | 22 => "CONTRACTS".data
  | 23 => "RECEIPTS".data
  | _ => []

/-- The standard full title `f"ITEM {item_num}: {FDD_ITEMS[item_num]}"`. -/
def standardTitle (n : Nat) : List Char :=
  "ITEM ".data ++ natToChars n ++ ": ".data ++ fddItems n

/-- The fuzzy check `_fuzzy_match_header`: the maximum of
`fuzz.ratio(text.upper(), standard_title.upper())`,
`fuzz.ratio(text.upper(), FDD_ITEMS[n].upper())` and
`fuzz.partial_token_sort_ratio(text.upper(), standard_title.upper())`
must exceed 80. -/
def fuzzyMatchHeader (text : List Char) (n : Nat) : Bool :=
  let st := standardTitle n
  let r1 := simScore (upperL text) (upperL st)
  let r2 := simScore (upperL text) (upperL (fddItems n))
  let tr := tokenSortWindowScore (upperL text) (upperL st)
  fracLT ⟨80, 1⟩ (fracMax (fracMax r1 r2) tr)

/-- The weighted blend `_enhanced_fuzzy_match`: 0.4 whole-string
similarity against the standard title, 0.4 partial token-sort similarity
against the bare title, 0.2 bonus when `str(item_num)` occurs in the raw
text; accepted when the blend exceeds 75. This method is defined in the
source but never called by `analyze_fdd_sections`. -/
def enhancedFuzzyMatch (text : List Char) (n : Nat) : Bool × Frac :=
  let full := simScore (upperL text) (upperL (standardTitle n))
  let content := tokenSortWindowScore (upperL text) (upperL (fddItems n))
  let numScore : Frac := if infixOfL (natToChars n) text then ⟨100, 1⟩ else ⟨0, 1⟩
  let score := fracAdd (fracMul ⟨2, 5⟩ full)
    (fracAdd (fracMul ⟨2, 5⟩ content) (fracMul ⟨1, 5⟩ numScore))
  (fracLT ⟨75, 1⟩ score, score)

/-- In `_analyze_document_structure` (whose returned structure is unused
by the caller, so the only observable behaviour is whether it raises), a
text raises `IndexError` iff its `prov` key holds an empty list and one
of the branches subscripts it: a special-section keyword occurs in the
lowercased content, or an item pattern has a first match numbered 1..23. -/
def textRaisesInStructure (t : TextItem) : Bool :=
  decide (t.prov = some []) &&
    (specialKeywordHit (lowerL (t.text.getD [])) || structurePatternHit (t.text.getD []))

/-- In the header-collection pass of `analyze_fdd_sections`, a text
raises `IndexError` iff it is labelled `section_header` and its `prov`
key holds an empty list (`text.get("prov", [{}])[0]`). -/
def headerCollectRaises (t : TextItem) : Bool :=
  decide (t.label = some "section_header".data) && decide (t.prov = some [])

/-- Does `analyze_fdd_sections` raise on this document? It first runs
`_analyze_document_structure` over all texts, then collects headers. -/
def analyzeRaises (doc : Document) : Bool :=
  doc.texts.any textRaisesInStructure || doc.texts.any headerCollectRaises

/-- The page value a header candidate gets:
`text.get("prov", [{}])[0].get("page_no", "")` (the empty-prov-list case
is excluded by the raise check before this is reached). -/
def pageValOf (t : TextItem) : PageVal :=
  match t.prov with
  | some (p :: _) =>
    match p.page_no with
    | some k => .int k
    | none => .emptyStr
  | _ => .emptyStr

/-- Header-candidate collection of `analyze_fdd_sections`: texts with
`label == "section_header"`, in the order of the `texts` list. -/
def collectHeaders (texts : List TextItem) : List HeaderCand :=
  texts.filterMap fun t =>
    if t.label = some "section_header".data then
      some ⟨t.text.getD [], pageValOf t, t.self_ref.getD []⟩
    else none

/-- The tuple emitted when no header matched an item:
`(item_num, "NOT FOUND", 0, False, "MISSING")`. -/
def missingEntry (n : Nat) : SectionEntry :=
  ⟨n, "NOT FOUND".data, .int 0, false, .MISSING⟩

/-- The per-item scan of `analyze_fdd_sections`: walk the collected
headers in list order; on each header try the exact regex first, then
the fuzzy check, stopping at the first hit of either. -/
def scanHeaders (n : Nat) : List HeaderCand → SectionEntry
  | [] => missingEntry n
  | h :: rest =>
    if itemExactMatch n h.text then ⟨n, h.text, h.page, true, .EXACT⟩
    else if fuzzyMatchHeader h.text n then ⟨n, h.text, h.page, true, .FUZZY⟩
    else scanHeaders n rest

/-- `analyze_fdd_sections`: one Section Map tuple for each item 1..23,
or an uncaught exception for documents on which one of the subscripts of
an empty `prov` list raises. -/
def analyzeFddSections (doc : Document) : Except Unit (List SectionEntry) :=
  if analyzeRaises doc then .error ()
  else .ok ((List.range' 1 23).map fun n => scanHeaders n (collectHeaders doc.texts))


/-- The validation issues `validate_sections` can append, one
constructor per f-string message, carrying the interpolated data. -/
inductive Issue
  | nonSequential (item : Nat) (page prev : Int)
  | largeGap (diff : Int)
  | missingCritical (item : Nat)
  | numberNotInHeader (item : Nat)
deriving DecidableEq

/-- One record of the validation report. -/
structure ValRecord where
  item : Nat
  page : PageVal
  found : Bool
  mtype : MatchType
  text : List Char
  issues : List Issue
deriving DecidableEq

/-- The hard-coded critical item list of `validate_sections`. -/
def criticalItems : List Nat := [1, 2, 3, 4, 5, 6, 7, 21, 22, 23]

/-- The issues `validate_sections` records for a found entry with page
`p` given the current `prev_page`: a non-sequential issue when the page
goes backwards at all, a large-gap issue when it advances by more than
20 from a positive `prev_page`, and a format issue when the item number
is not a standalone token of the header text. -/
def issuesFound (item : Nat) (text : List Char) (p prev : Int) : List Issue :=
  (if p < prev then [Issue.nonSequential item p prev] else []) ++
    (if prev > 0 ∧ p - prev > 20 then [Issue.largeGap (p - prev)] else []) ++
    (if standaloneNum item text then [] else [Issue.numberNotInHeader item])

/-- The issues `validate_sections` records for a not-found entry: a
missing-critical issue iff the item is in the critical list. -/
def issuesMissing (item : Nat) : List Issue :=
  if item ∈ criticalItems then [Issue.missingCritical item] else []

/-- The loop of `validate_sections`, tracking `prev_page` (initially 0,
updated only by found entries). A found entry whose page is the
empty-string sentinel makes the Python comparison `page_no < prev_page`
raise `TypeError`, modelled as the error case. -/
def validateGo : Int → List SectionEntry → Except Unit (List ValRecord)
  | _, [] => .ok []
  | prev, e :: rest =>
    if e.found then
      match e.page with
      | .emptyStr => .error ()
      | .int p =>
        match validateGo p rest with
        | .error u => .error u
        | .ok out =>
          .ok (⟨e.item, e.page, e.found, e.mtype, e.text, issuesFound e.item e.text p prev⟩ :: out)
    else
      match validateGo prev rest with
      | .error u => .error u
      | .ok out => .ok (⟨e.item, e.page, e.found, e.mtype, e.text, issuesMissing e.item⟩ :: out)

/-- `validate_sections`: validate a Section Map starting from
`prev_page = 0`. -/
def validateSections (entries : List SectionEntry) : Except Unit (List ValRecord) :=
  validateGo 0 entries

/-- One update of the `prev_page` tracker: only a found entry replaces
it (with that entry's page). -/
def prevUpd (prev : Int) (e : SectionEntry) : Int :=
  if e.found then (match e.page with | .int p => p | .emptyStr => prev) else prev

/-- The value of the `prev_page` tracker after consuming a list of
entries. -/
def prevTrack (prev : Int) : List SectionEntry → Int
  | [] => prev
  | e :: rest => prevTrack (prevUpd prev e) rest

/-- An entry of the sorted list built by `_get_sorted_texts`. -/
structure PageText where
  text : List Char
  page_no : Int
  top : ℚ
  left : ℚ
  self_ref : List Char
deriving DecidableEq

/-- The page-range filter `start_page <= page_no and
(end_page is None or page_no < end_page)`. -/
def inPageRange (startPage : Int) (endPage : Option Int) (pn : Int) : Bool :=
  decide (startPage ≤ pn) &&
    (match endPage with
     | none => true
     | some e => decide (pn < e))

/-- The per-fragment step of `_get_sorted_texts`: fragments whose `prov`
key is absent or an empty list are skipped by the
`if "prov" in text and text["prov"]` guard; otherwise `page_no`, `t`,
`l` are read from `prov[0]` with defaults 0, and the fragment is kept
iff its page is in range. -/
def fragToPageText (startPage : Int) (endPage : Option Int) (t : TextItem) : Option PageText :=
  match t.prov with
  | some (p :: _) =>
    let pn := p.page_no.getD 0
    if inPageRange startPage endPage pn then
      some ⟨t.text.getD [], pn, (p.bbox.bind fun b => b.t).getD 0,
        (p.bbox.bind fun b => b.l).getD 0, t.self_ref.getD []⟩
    else none
  | _ => none

/-- The composite sort key of `_get_sorted_texts`:
`key=lambda x: (x["page_no"], -x["top"], x["left"])`, as the
corresponding total preorder (ascending page, descending top,
ascending left). -/
def pageKeyLE (a b : PageText) : Prop :=
  a.page_no < b.page_no ∨
    (a.page_no = b.page_no ∧ (b.top < a.top ∨ (a.top = b.top ∧ a.left ≤ b.left)))

instance : DecidableRel pageKeyLE := fun a b => by
  unfold pageKeyLE
  infer_instance

instance : IsTotal PageText pageKeyLE := by
  constructor
  intro a b
  unfold pageKeyLE
  rcases lt_trichotomy a.page_no b.page_no with h | h | h
  · exact Or.inl (Or.inl h)
  · rcases lt_trichotomy a.top b.top with ht | ht | ht
    · exact Or.inr (Or.inr ⟨h.symm, Or.inl ht⟩)
    · rcases le_total a.left b.left with hl | hl
      · exact Or.inl (Or.inr ⟨h, Or.inr ⟨ht, hl⟩⟩)
      · exact Or.inr (Or.inr ⟨h.symm, Or.inr ⟨ht.symm, hl⟩⟩)
    · exact Or.inl (Or.inr ⟨h, Or.inl ht⟩)
  · exact Or.inr (Or.inl h)

instance : IsTrans PageText pageKeyLE := by
  constructor
  intro a b c hab hbc
  unfold pageKeyLE at hab hbc ⊢
  rcases hab with h1 | ⟨e1, h1⟩ <;> rcases hbc with h2 | ⟨e2, h2⟩
  · exact Or.inl (h1.trans h2)
  · exact Or.inl (lt_of_lt_of_eq h1 e2)
  · exact Or.inl (lt_of_eq_of_lt e1 h2)
  · refine Or.inr ⟨e1.trans e2, ?_⟩
    rcases h1 with h1 | ⟨et1, hl1⟩ <;> rcases h2 with h2 | ⟨et2, hl2⟩
    · exact Or.inl (h2.trans h1)
    · exact Or.inl (lt_of_eq_of_lt et2.symm h1)
    · exact Or.inl (lt_of_lt_of_eq h2 et1.symm)
    · exact Or.inr ⟨et1.trans et2, hl1.trans hl2⟩

/-- `_get_sorted_texts`: filter the fragments to the page range and sort
by the composite key. Python `list.sort` is a stable ascending sort, and
a stable sort with respect to a total preorder has a uniquely determined
output, so Mathlib's (stable) insertion sort is an exact model of it. -/
def getSortedTexts (doc : Document) (startPage : Int) (endPage : Option Int) : List PageText :=
  (doc.texts.filterMap (fragToPageText startPage endPage)).insertionSort pageKeyLE

/-- Builder for a `section_header`-labelled text with one well-formed
provenance record (used by the concrete input documents below). -/
def hdrText (s : String) (page : Int) : TextItem :=
  ⟨some s.data, some "section_header".data, some [⟨some page, none⟩], none⟩

/-- Two headers reading "ITEM 3", the page-40 one listed first. -/
def docTwoItem3 : Document := ⟨[hdrText "ITEM 3" 40, hdrText "ITEM 3" 10]⟩

/-- A fuzzy-matching header (bare canonical title) listed before an
exact "ITEM 3" header. -/
def docFuzzyFirst : Document := ⟨[hdrText "LITIGATION" 5, hdrText "ITEM 3 LITIGATION" 9]⟩

/-- A single header carrying just the bare canonical title of item 3. -/
def docLitOnly : Document := ⟨[hdrText "LITIGATION" 5]⟩

/-- A document whose only text is a section header with a present but
empty `prov` list. -/
def docEmptyProv : Document :=
  ⟨[⟨some "ITEM 1".data, some "section_header".data, some [], none⟩]⟩

/-- The document with no texts at all. -/
def docNoTexts : Document := ⟨[]⟩

/-- The Section Map of a document with no matching headers:
all 23 items MISSING. -/
def emptyDocMap : List SectionEntry := (List.range' 1 23).map missingEntry

/-- Builder for a body fragment with full positional data. -/
def fragW (s : String) (pn : Int) (tp lf : ℚ) : TextItem :=
  ⟨some s.data, none, some [⟨some pn, some ⟨some tp, some lf⟩⟩], none⟩

/-- Four positioned fragments, including a tied pair (same page, top and
left) to exercise sort stability. -/
def docSortW : Document :=
  ⟨[fragW "A" 2 1 5, fragW "B" 1 2 7, fragW "C" 1 2 7, fragW "D" 1 9 1]⟩

/-- A fragment whose single provenance record has no `page_no` and no
`bbox` (all positional data missing). -/
def fragDefaulted : TextItem := ⟨some "A".data, none, some [⟨none, none⟩], none⟩

/-- A fragment with no `prov` key at all. -/
def fragNoProv : TextItem := ⟨some "B".data, none, none, none⟩

/-- A two-entry Section Map whose second page jumps backwards. -/
def entriesBack : List SectionEntry :=
  [⟨1, "ITEM 1".data, .int 10, true, .EXACT⟩, ⟨2, "ITEM 2".data, .int 5, true, .EXACT⟩]

/-- Helper lemma: a successful analysis is exactly the per-item scan of
the collected headers over items 1..23. -/
theorem analyze_ok_elim {doc : Document} {sm : List SectionEntry}
    (h : analyzeFddSections doc = .ok sm) :
    sm = (List.range' 1 23).map fun n => scanHeaders n (collectHeaders doc.texts) := by
  unfold analyzeFddSections at h
  split at h
  · cases h
  · exact (Except.ok.inj h).symm

/-- Helper lemma: the scan always reports the item number it was asked for. -/
theorem scanHeaders_item (n : Nat) : ∀ hs, (scanHeaders n hs).item = n := by
  intro hs
  induction hs with
  | nil => rfl
  | cons h rest ih =>
    unfold scanHeaders
    split
    · rfl
    · split
      · rfl
      · exact ih

/-- Helper lemma: a candidate failing both checks is skipped. -/
theorem scanHeaders_cons_skip (n : Nat) (h : HeaderCand) (rest : List HeaderCand)
    (h1 : itemExactMatch n h.text = false) (h2 : fuzzyMatchHeader h.text n = false) :
    scanHeaders n (h :: rest) = scanHeaders n rest := by
  simp [scanHeaders, h1, h2]

/-- Helper lemma: candidates failing both checks are skipped. -/
theorem scanHeaders_skip (n : Nat) (pre rest : List HeaderCand)
    (hpre : ∀ h2 ∈ pre, itemExactMatch n h2.text = false ∧ fuzzyMatchHeader h2.text n = false) :
    scanHeaders n (pre ++ rest) = scanHeaders n rest := by
  induction pre with
  | nil => rfl
  | cons h tl ih =>
    have hh := hpre h (List.mem_cons_self h tl)
    have htl : ∀ h2 ∈ tl, itemExactMatch n h2.text = false ∧ fuzzyMatchHeader h2.text n = false :=
      fun h2 hm => hpre h2 (List.mem_cons_of_mem h hm)
    rw [List.cons_append, scanHeaders_cons_skip n h (tl ++ rest) hh.1 hh.2]
    exact ih htl

/-- Helper lemma: when no candidate passes either check, the scan emits
the MISSING sentinel tuple. -/
theorem scanHeaders_missing (n : Nat) (hs : List HeaderCand)
    (hall : ∀ h2 ∈ hs, itemExactMatch n h2.text = false ∧ fuzzyMatchHeader h2.text n = false) :
    scanHeaders n hs = missingEntry n := by
  have := scanHeaders_skip n hs [] hall
  simpa using this

/-- Helper lemma: the `prev_page` tracker over a concatenation. -/
theorem prevTrack_cons (prev : Int) (e : SectionEntry) (l : List SectionEntry) :
    prevTrack prev (e :: l) = prevTrack (prevUpd prev e) l := rfl

theorem prevTrack_append (prev : Int) (xs ys : List SectionEntry) :
    prevTrack prev (xs ++ ys) = prevTrack (prevTrack prev xs) ys := by
  induction xs generalizing prev with
  | nil => rfl
  | cons e tl ih =>
    rw [List.cons_append]
    simp only [prevTrack_cons]
    exact ih _

/-- Helper lemma: which non-sequential issues the found-entry issue list
contains. -/
theorem mem_issuesFound_nonSeq (item : Nat) (text : List Char) (p prev : Int)
    (it : Nat) (q pv : Int) :
    Issue.nonSequential it q pv ∈ issuesFound item text p prev ↔
      (it = item ∧ q = p ∧ pv = prev ∧ p < prev) := by
  unfold issuesFound
  by_cases h1 : p < prev <;>
    by_cases h2 : prev > 0 ∧ p - prev > 20 <;>
      by_cases h3 : standaloneNum item text <;>
        simp [h1, h2, h3]

/-- Helper lemma: which large-gap issues the found-entry issue list
contains. -/
theorem mem_issuesFound_gap (item : Nat) (text : List Char) (p prev : Int) (d : Int) :
    Issue.largeGap d ∈ issuesFound item text p prev ↔
      (d = p - prev ∧ prev > 0 ∧ p - prev > 20) := by
  unfold issuesFound
  by_cases h1 : p < prev <;>
    by_cases h2 : prev > 0 ∧ p - prev > 20 <;>
      by_cases h3 : standaloneNum item text <;>
        simp [h1, h2, h3]

/-- Helper lemma: which format issues the found-entry issue list contains. -/
theorem mem_issuesFound_noNum (item : Nat) (text : List Char) (p prev : Int) (it : Nat) :
    Issue.numberNotInHeader it ∈ issuesFound item text p prev ↔
      (it = item ∧ standaloneNum item text = false) := by
  unfold issuesFound
  by_cases h1 : p < prev <;>
    by_cases h2 : prev > 0 ∧ p - prev > 20 <;>
      by_cases h3 : standaloneNum item text <;>
        simp [h1, h2, h3]

/-- Helper lemma: a found entry never gets a missing-critical issue. -/
theorem mem_issuesFound_noCrit (item : Nat) (text : List Char) (p prev : Int) (it : Nat) :
    Issue.missingCritical it ∉ issuesFound item text p prev := by
  unfold issuesFound
  by_cases h1 : p < prev <;>
    by_cases h2 : prev > 0 ∧ p - prev > 20 <;>
      by_cases h3 : standaloneNum item text <;>
        simp [h1, h2, h3]

/-- Helper lemma: which missing-critical issues the not-found issue list
contains. -/
theorem mem_issuesMissing_crit (item it : Nat) :
    Issue.missingCritical it ∈ issuesMissing item ↔ (it = item ∧ item ∈ criticalItems) := by
  unfold issuesMissing
  by_cases h : item ∈ criticalItems <;> simp [h]

/-- Helper lemma: the not-found issue list contains only missing-critical
issues. -/
theorem mem_issuesMissing_only (item : Nat) :
    ∀ i ∈ issuesMissing item, i = Issue.missingCritical item := by
  unfold issuesMissing
  by_cases h : item ∈ criticalItems <;> simp [h]

/-- Helper lemma: a successful run of the validator loop yields, at
every index, a record copying the entry's fields whose issue list is
exactly the found/missing issue list computed against the `prev_page`
tracker over the preceding entries. -/
theorem validateGo_spec :
    ∀ (entries : List SectionEntry) (prev : Int) (out : List ValRecord),
      validateGo prev entries = .ok out →
      ∀ i e r, entries[i]? = some e → out[i]? = some r →
        (r.item = e.item ∧ r.page = e.page ∧ r.found = e.found ∧
          r.mtype = e.mtype ∧ r.text = e.text) ∧
        (if e.found = true then
          ∃ p, e.page = .int p ∧
            r.issues = issuesFound e.item e.text p (prevTrack prev (entries.take i))
         else r.issues = issuesMissing e.item) := by
  intro entries
  induction entries with
  | nil =>
    intro prev out hok i e r he hr
    simp at he
  | cons e0 tl ih =>
    intro prev out hok i e r he hr
    unfold validateGo at hok
    by_cases hf : e0.found = true
    · rw [if_pos hf] at hok
      cases hp : e0.page with
      | emptyStr =>
        rw [hp] at hok
        simp at hok
      | int p =>
        rw [hp] at hok
        dsimp only [] at hok
        cases hrec : validateGo p tl with
        | error u =>
          rw [hrec] at hok
          simp at hok
        | ok out2 =>
          rw [hrec] at hok
          simp only [Except.ok.injEq] at hok
          subst hok
          cases i with
          | zero =>
            simp only [List.getElem?_cons_zero, Option.some.injEq] at he hr
            subst he
            subst hr
            refine ⟨⟨rfl, hp.symm, rfl, rfl, rfl⟩, ?_⟩
            rw [if_pos hf]
            exact ⟨p, hp, rfl⟩
          | succ j =>
            simp only [List.getElem?_cons_succ] at he hr
            have hrest := ih p out2 hrec j e r he hr
            have hupd : prevUpd prev e0 = p := by
              simp [prevUpd, hf, hp]
            rw [List.take_succ_cons, prevTrack_cons, hupd]
            exact hrest
    · rw [if_neg hf] at hok
      cases hrec : validateGo prev tl with
      | error u =>
        rw [hrec] at hok
        simp at hok
      | ok out2 =>
        rw [hrec] at hok
        simp only [Except.ok.injEq] at hok
        subst hok
        cases i with
        | zero =>
          simp only [List.getElem?_cons_zero, Option.some.injEq] at he hr
          subst he
          subst hr
          refine ⟨⟨rfl, rfl, rfl, rfl, rfl⟩, ?_⟩
          rw [if_neg hf]
        | succ j =>
          simp only [List.getElem?_cons_succ] at he hr
          have hrest := ih prev out2 hrec j e r he hr
          have hupd : prevUpd prev e0 = prev := by
            simp [prevUpd, hf]
          rw [List.take_succ_cons, prevTrack_cons, hupd]
          exact hrest

/-- Helper lemma: the validator loop succeeds (and returns one record
per entry) on any section list whose found entries carry integer pages. -/
theorem validateGo_total :
    ∀ (entries : List SectionEntry) (prev : Int),
      (∀ e ∈ entries, e.found = true → ∃ p, e.page = .int p) →
      ∃ out, validateGo prev entries = .ok out ∧ out.length = entries.length := by
  intro entries
  induction entries with
  | nil => exact fun prev _ => ⟨[], rfl, rfl⟩
  | cons e0 tl ih =>
    intro prev h
    by_cases hf : e0.found = true
    · obtain ⟨p, hp⟩ := h e0 (List.mem_cons_self e0 tl) hf
      obtain ⟨out2, hok, hlen⟩ := ih p (fun e hm => h e (List.mem_cons_of_mem e0 hm))
      refine ⟨⟨e0.item, e0.page, e0.found, e0.mtype, e0.text,
        issuesFound e0.item e0.text p prev⟩ :: out2, ?_, ?_⟩
      · unfold validateGo
        rw [if_pos hf, hp]
        dsimp only []
        rw [hok]
      · simp [hlen]
    · obtain ⟨out2, hok, hlen⟩ := ih prev (fun e hm => h e (List.mem_cons_of_mem e0 hm))
      refine ⟨⟨e0.item, e0.page, e0.found, e0.mtype, e0.text,
        issuesMissing e0.item⟩ :: out2, ?_, ?_⟩
      · unfold validateGo
        rw [if_neg hf, hok]
      · simp [hlen]

/-- Helper lemma: a successful validation has one record per entry. -/
theorem validateGo_ok_length :
    ∀ (entries : List SectionEntry) (prev : Int) (out : List ValRecord),
      validateGo prev entries = .ok out → out.length = entries.length := by
  intro entries
  induction entries with
  | nil =>
    intro prev out hok
    simp only [validateGo, Except.ok.injEq] at hok
    subst hok
    rfl
  | cons e0 tl ih =>
    intro prev out hok
    unfold validateGo at hok
    by_cases hf : e0.found = true
    · rw [if_pos hf] at hok
      cases hp : e0.page with
      | emptyStr =>
        rw [hp] at hok
        simp at hok
      | int p =>
        rw [hp] at hok
        dsimp only [] at hok
        cases hrec : validateGo p tl with
        | error u =>
          rw [hrec] at hok
          simp at hok
        | ok out2 =>
          rw [hrec] at hok
          simp only [Except.ok.injEq] at hok
          subst hok
          simp [ih p out2 hrec]
    · rw [if_neg hf] at hok
      cases hrec : validateGo prev tl with
      | error u =>
        rw [hrec] at hok
        simp at hok
      | ok out2 =>
        rw [hrec] at hok
        simp only [Except.ok.injEq] at hok
        subst hok
        simp [ih prev out2 hrec]

/-- Claim C1: whenever `analyze_fdd_sections` returns a Section Map, it
has exactly 23 entries, the entry at index i carries item number i+1
(so items 1..23 in increasing order, no duplicates, no gaps), and every
entry is classified EXACT, FUZZY or MISSING. -/
theorem claim1_section_map_complete :
    ∀ (doc : Document) (sm : List SectionEntry), analyzeFddSections doc = .ok sm →
      sm.length = 23 ∧
      (∀ i (h : i < sm.length), (sm.get ⟨i, h⟩).item = i + 1) ∧
      (∀ e ∈ sm, e.mtype = .EXACT ∨ e.mtype = .FUZZY ∨ e.mtype = .MISSING) := by
  intro doc sm h
  have hsm := analyze_ok_elim h
  subst hsm
  refine ⟨by simp, ?_, ?_⟩
  · intro i hi
    simp only [List.get_eq_getElem, List.getElem_map, List.getElem_range', scanHeaders_item]
    omega
  · intro e _
    rcases e with ⟨it, tx, pg, fd, mt⟩
    cases mt <;> simp

/-- Witness for C1: the empty document analyzes to the all-MISSING map,
which satisfies the completeness invariant. -/
theorem claim1_section_map_complete_witness :
    analyzeFddSections docNoTexts = .ok emptyDocMap ∧
      (emptyDocMap.length = 23 ∧
        (∀ i (h : i < emptyDocMap.length), (emptyDocMap.get ⟨i, h⟩).item = i + 1) ∧
        (∀ e ∈ emptyDocMap, e.mtype = .EXACT ∨ e.mtype = .FUZZY ∨ e.mtype = .MISSING)) :=
  ⟨rfl, claim1_section_map_complete docNoTexts emptyDocMap rfl⟩

/-- Counterexample for C2: with two "ITEM 3" headers listed page-40
first and page-10 second, the exact pass selects the page-40 occurrence
(the first in the `texts`-list scan), not the page-10 occurrence that is
first in the §4.1 reading order — get the item-3 entry (index 2) of the
analysis. -/
theorem claim2_counterexample :
    (analyzeFddSections docTwoItem3).toOption.bind (fun l => l[2]?) =
      some ⟨3, "ITEM 3".data, .int 40, true, .EXACT⟩ ∧
      itemExactMatch 3 "ITEM 3".data = true := by
  constructor
  · decide
  · decide

/-- Claim C2 (amended): for every item n, the scan walks the header
candidates in `texts`-list order (not the §4.1 reading order) and the
exact check is only the regex `ITEM\s+n\b` (no SECTION/leading-digit/
roman schemes); if every earlier candidate fails both checks and a
candidate passes the exact regex, that candidate is accepted with
match_type EXACT and its page. -/
theorem claim2_amended :
    ∀ (n : Nat) (pre : List HeaderCand) (h : HeaderCand) (post : List HeaderCand),
      (∀ h2 ∈ pre, itemExactMatch n h2.text = false ∧ fuzzyMatchHeader h2.text n = false) →
      itemExactMatch n h.text = true →
      scanHeaders n (pre ++ h :: post) = ⟨n, h.text, h.page, true, .EXACT⟩ := by
  intro n pre h post hpre hex
  rw [scanHeaders_skip n pre (h :: post) hpre]
  simp [scanHeaders, hex]

/-- Witness for the amended C2 at a concrete candidate list. -/
theorem claim2_amended_witness :
    itemExactMatch 1 "ITEM 1".data = true ∧
      scanHeaders 1 [⟨"ITEM 1".data, .int 7, []⟩] = ⟨1, "ITEM 1".data, .int 7, true, .EXACT⟩ :=
  ⟨by decide, claim2_amended 1 [] ⟨"ITEM 1".data, .int 7, []⟩ [] (by simp) (by decide)⟩

/-- Counterexample for C3: the document lists a fuzzy-matching header
("LITIGATION", page 5) before an exact-matching header
("ITEM 3 LITIGATION", page 9); the item-3 entry is FUZZY at page 5 even
though a candidate in the document exact-matches item 3. -/
theorem claim3_counterexample :
    (analyzeFddSections docFuzzyFirst).toOption.bind (fun l => l[2]?) =
      some ⟨3, "LITIGATION".data, .int 5, true, .FUZZY⟩ ∧
      itemExactMatch 3 "ITEM 3 LITIGATION".data = true := by
  constructor
  · decide
  · decide

/-- Claim C3 (amended): the fuzzy check runs per candidate, interleaved
with the exact check, not as a second pass: the scan stops at the first
candidate passing either check, so an earlier fuzzy-matching candidate
is accepted with FUZZY even when a later candidate exact-matches. -/
theorem claim3_amended :
    ∀ (n : Nat) (pre : List HeaderCand) (h : HeaderCand) (post : List HeaderCand),
      (∀ h2 ∈ pre, itemExactMatch n h2.text = false ∧ fuzzyMatchHeader h2.text n = false) →
      itemExactMatch n h.text = false →
      fuzzyMatchHeader h.text n = true →
      scanHeaders n (pre ++ h :: post) = ⟨n, h.text, h.page, true, .FUZZY⟩ := by
  intro n pre h post hpre hex hfz
  rw [scanHeaders_skip n pre (h :: post) hpre]
  simp [scanHeaders, hex, hfz]

/-- Witness for the amended C3: the bare-title candidate is accepted
FUZZY although an exact "ITEM 3" candidate follows it. -/
theorem claim3_amended_witness :
    itemExactMatch 3 "LITIGATION".data = false ∧
      fuzzyMatchHeader "LITIGATION".data 3 = true ∧
      scanHeaders 3 [⟨"LITIGATION".data, .int 5, []⟩, ⟨"ITEM 3 LITIGATION".data, .int 9, []⟩] =
        ⟨3, "LITIGATION".data, .int 5, true, .FUZZY⟩ :=
  ⟨by decide, by decide,
    claim3_amended 3 [] ⟨"LITIGATION".data, .int 5, []⟩ [⟨"ITEM 3 LITIGATION".data, .int 9, []⟩]
      (by simp) (by decide) (by decide)⟩

/-- Claim C4: `_get_sorted_texts` returns a permutation of exactly the
in-range fragments (those with a provenance record and page in
`[start_page, end_page)`), pairwise ordered by ascending page, then
descending top, then ascending left; the sort is stable (an in-order
pair related by the key order stays in order); membership is exactly the
in-range filtered fragments, and a fragment with a provenance record is
kept iff its (defaulted) page is in range. -/
theorem claim4_sequencer :
    ∀ (doc : Document) (s : Int) (e : Option Int),
      List.Perm (getSortedTexts doc s e) (doc.texts.filterMap (fragToPageText s e)) ∧
      (getSortedTexts doc s e).Pairwise (fun a b =>
        a.page_no ≤ b.page_no ∧ (a.page_no = b.page_no → b.top ≤ a.top) ∧
          (a.page_no = b.page_no → a.top = b.top → a.left ≤ b.left)) ∧
      (∀ a b, List.Sublist [a, b] (doc.texts.filterMap (fragToPageText s e)) → pageKeyLE a b →
        List.Sublist [a, b] (getSortedTexts doc s e)) ∧
      (∀ x, x ∈ getSortedTexts doc s e ↔ ∃ t ∈ doc.texts, fragToPageText s e t = some x) ∧
      (∀ t ∈ doc.texts, ∀ p rest, t.prov = some (p :: rest) →
        (fragToPageText s e t).isSome = inPageRange s e (p.page_no.getD 0)) := by
  intro doc s e
  refine ⟨List.perm_insertionSort pageKeyLE _, ?_, ?_, ?_, ?_⟩
  · have hs := List.sorted_insertionSort pageKeyLE (doc.texts.filterMap (fragToPageText s e))
    refine List.Pairwise.imp ?_ hs
    intro a b hab
    rcases hab with hlt | ⟨heq, hrest⟩
    · refine ⟨le_of_lt hlt, ?_, ?_⟩
      · intro he
        rw [he] at hlt
        exact absurd hlt (lt_irrefl _)
      · intro he _
        rw [he] at hlt
        exact absurd hlt (lt_irrefl _)
    · refine ⟨le_of_eq heq, fun _ => ?_, fun _ htop => ?_⟩
      · rcases hrest with htl | ⟨hte, _⟩
        · exact le_of_lt htl
        · exact le_of_eq hte.symm
      · rcases hrest with htl | ⟨_, hll⟩
        · rw [htop] at htl
          exact absurd htl (lt_irrefl _)
        · exact hll
  · intro a b hsub hab
    exact List.pair_sublist_insertionSort hab hsub
  · intro x
    rw [getSortedTexts]
    rw [List.mem_insertionSort]
    exact List.mem_filterMap
  · intro t _ p rest hp
    unfold fragToPageText
    rw [hp]
    by_cases hr : inPageRange s e (p.page_no.getD 0) = true
    · simp [hr]
    · simp only [Bool.not_eq_true] at hr
      simp [hr]

/-- Witness for C4 at a concrete document with a tied pair: the sorted
content is page-ascending, top-descending, left-ascending, and the tied
fragments B and C keep their original order. -/
theorem claim4_sequencer_witness :
    getSortedTexts docSortW 0 none =
      [⟨"D".data, 1, 9, 1, []⟩, ⟨"B".data, 1, 2, 7, []⟩, ⟨"C".data, 1, 2, 7, []⟩,
        ⟨"A".data, 2, 1, 5, []⟩] ∧
      (List.Perm (getSortedTexts docSortW 0 none) (docSortW.texts.filterMap (fragToPageText 0 none)) ∧
        (getSortedTexts docSortW 0 none).Pairwise (fun a b =>
          a.page_no ≤ b.page_no ∧ (a.page_no = b.page_no → b.top ≤ a.top) ∧
            (a.page_no = b.page_no → a.top = b.top → a.left ≤ b.left)) ∧
        (∀ a b, List.Sublist [a, b] (docSortW.texts.filterMap (fragToPageText 0 none)) → pageKeyLE a b →
          List.Sublist [a, b] (getSortedTexts docSortW 0 none)) ∧
        (∀ x, x ∈ getSortedTexts docSortW 0 none ↔
          ∃ t ∈ docSortW.texts, fragToPageText 0 none t = some x) ∧
        (∀ t ∈ docSortW.texts, ∀ p rest, t.prov = some (p :: rest) →
          (fragToPageText 0 none t).isSome = inPageRange 0 none (p.page_no.getD 0))) :=
  ⟨by decide, claim4_sequencer docSortW 0 none⟩

/-- Counterexample for C5: the header "LITIGATION" is accepted FUZZY for
item 3 by the analysis, yet its blended weighted score
(`_enhanced_fuzzy_match`: 0.4 whole-string + 0.4 token-sort + 0.2
number bonus) does not exceed the 75 threshold — the fuzzy pass does not
use the blended metric (it uses `_fuzzy_match_header`, a max of three
similarities against 80; `_enhanced_fuzzy_match` is never called). -/
theorem claim5_counterexample :
    (analyzeFddSections docLitOnly).toOption.bind (fun l => l[2]?) =
      some ⟨3, "LITIGATION".data, .int 5, true, .FUZZY⟩ ∧
      (enhancedFuzzyMatch "LITIGATION".data 3).1 = false := by
  constructor
  · decide
  · decide

/-- Claim C5 (amended): every FUZZY acceptance comes from the first
candidate (in scan order) passing `_fuzzy_match_header` — the maximum of
whole-string similarity against "ITEM n: title", whole-string similarity
against the bare title, and partial token-sort similarity against
"ITEM n: title" exceeding 80 — after failing the exact regex, with all
earlier candidates failing both checks. -/
theorem claim5_amended :
    ∀ (n : Nat) (hs : List HeaderCand) (t : List Char) (p : PageVal),
      scanHeaders n hs = ⟨n, t, p, true, .FUZZY⟩ →
      ∃ pre h post, hs = pre ++ h :: post ∧ t = h.text ∧ p = h.page ∧
        itemExactMatch n h.text = false ∧ fuzzyMatchHeader h.text n = true ∧
        ∀ h2 ∈ pre, itemExactMatch n h2.text = false ∧ fuzzyMatchHeader h2.text n = false := by
  intro n hs
  induction hs with
  | nil =>
    intro t p hscan
    simp [scanHeaders, missingEntry] at hscan
  | cons h0 tl ih =>
    intro t p hscan
    by_cases hex : itemExactMatch n h0.text = true
    · rw [show scanHeaders n (h0 :: tl) = ⟨n, h0.text, h0.page, true, .EXACT⟩ from by
        simp [scanHeaders, hex]] at hscan
      simp at hscan
    · have hex' : itemExactMatch n h0.text = false := by simpa using hex
      by_cases hfz : fuzzyMatchHeader h0.text n = true
      · rw [show scanHeaders n (h0 :: tl) = ⟨n, h0.text, h0.page, true, .FUZZY⟩ from by
          simp [scanHeaders, hex', hfz]] at hscan
        have h1 : h0.text = t := congrArg SectionEntry.text hscan
        have h2 : h0.page = p := congrArg SectionEntry.page hscan
        exact ⟨[], h0, tl, rfl, h1.symm, h2.symm, hex', hfz, by simp⟩
      · have hfz' : fuzzyMatchHeader h0.text n = false := by simpa using hfz
        rw [scanHeaders_cons_skip n h0 tl hex' hfz'] at hscan
        obtain ⟨pre, h, post, hdec, ht, hp, he2, hf2, hpre⟩ := ih t p hscan
        refine ⟨h0 :: pre, h, post, ?_, ht, hp, he2, hf2, ?_⟩
        · rw [hdec, List.cons_append]
        · intro h2 hm
          rcases List.mem_cons.mp hm with hm | hm
          · subst hm
            exact ⟨hex', hfz'⟩
          · exact hpre h2 hm

/-- Witness for the amended C5 at a concrete one-candidate list. -/
theorem claim5_amended_witness :
    scanHeaders 3 [⟨"LITIGATION".data, .int 5, []⟩] =
      ⟨3, "LITIGATION".data, .int 5, true, .FUZZY⟩ ∧
      (∃ pre h post,
        [(⟨"LITIGATION".data, .int 5, []⟩ : HeaderCand)] = pre ++ h :: post ∧
          "LITIGATION".data = h.text ∧ PageVal.int 5 = h.page ∧
          itemExactMatch 3 h.text = false ∧ fuzzyMatchHeader h.text 3 = true ∧
          ∀ h2 ∈ pre, itemExactMatch 3 h2.text = false ∧ fuzzyMatchHeader h2.text 3 = false) :=
  ⟨by decide,
    claim5_amended 3 [⟨"LITIGATION".data, .int 5, []⟩] "LITIGATION".data (.int 5) (by decide)⟩

/-- Claim C6: in a successful validation, the record at index i carries
a non-sequential issue exactly when the entry is found with a page below
the previous matched page (margin 0), a large-gap issue exactly when it
is found with a page exceeding a positive previous matched page by more
than 20, and the previous-matched-page tracker is updated only by found
entries (`prevUpd` leaves it unchanged on MISSING entries). -/
theorem claim6_page_validation :
    ∀ (entries : List SectionEntry) (out : List ValRecord) (i : Nat)
      (e : SectionEntry) (r : ValRecord),
      validateSections entries = .ok out → entries[i]? = some e → out[i]? = some r →
      (∀ it q pv, Issue.nonSequential it q pv ∈ r.issues ↔
        (e.found = true ∧ it = e.item ∧ e.page = .int q ∧
          pv = prevTrack 0 (entries.take i) ∧ q < prevTrack 0 (entries.take i))) ∧
      (∀ d, Issue.largeGap d ∈ r.issues ↔
        (e.found = true ∧ ∃ q, e.page = .int q ∧ d = q - prevTrack 0 (entries.take i) ∧
          prevTrack 0 (entries.take i) > 0 ∧ q - prevTrack 0 (entries.take i) > 20)) ∧
      prevTrack 0 (entries.take (i + 1)) = prevUpd (prevTrack 0 (entries.take i)) e := by
  intro entries out i e r hok he hr
  have hspec := validateGo_spec entries 0 out hok i e r he hr
  have htake : prevTrack 0 (entries.take (i + 1)) = prevUpd (prevTrack 0 (entries.take i)) e := by
    rw [List.take_succ, he]
    rw [prevTrack_append]
    rfl
  refine ⟨?_, ?_, htake⟩
  · intro it q pv
    by_cases hf : e.found = true
    · rw [if_pos hf] at hspec
      obtain ⟨p, hp, hiss⟩ := hspec.2
      rw [hiss, mem_issuesFound_nonSeq]
      constructor
      · rintro ⟨hit, hq, hpv, hlt⟩
        subst hq
        exact ⟨hf, hit, hp, hpv, hlt⟩
      · rintro ⟨_, hit, hpage, hpv, hlt⟩
        rw [hp] at hpage
        have hq : q = p := (PageVal.int.inj hpage).symm
        subst hq
        exact ⟨hit, rfl, hpv, hlt⟩
    · rw [if_neg hf] at hspec
      rw [hspec.2]
      constructor
      · intro hm
        have := mem_issuesMissing_only e.item _ hm
        cases this
      · rintro ⟨hft, _⟩
        exact absurd hft hf
  · intro d
    by_cases hf : e.found = true
    · rw [if_pos hf] at hspec
      obtain ⟨p, hp, hiss⟩ := hspec.2
      rw [hiss, mem_issuesFound_gap]
      constructor
      · rintro ⟨hd, hpos, hgap⟩
        exact ⟨hf, p, hp, hd, hpos, hgap⟩
      · rintro ⟨_, q, hpage, hd, hpos, hgap⟩
        rw [hp] at hpage
        have hq : q = p := (PageVal.int.inj hpage).symm
        subst hq
        exact ⟨hd, hpos, hgap⟩
    · rw [if_neg hf] at hspec
      rw [hspec.2]
      constructor
      · intro hm
        have := mem_issuesMissing_only e.item _ hm
        cases this
      · rintro ⟨hft, _⟩
        exact absurd hft hf

/-- Witness for C6: a two-entry map whose second page jumps from 10 back
to 5 yields exactly one non-sequential issue on the second record. -/
theorem claim6_page_validation_witness :
    validateSections entriesBack =
      .ok [⟨1, .int 10, true, .EXACT, "ITEM 1".data, []⟩,
        ⟨2, .int 5, true, .EXACT, "ITEM 2".data, [.nonSequential 2 5 10]⟩] ∧
      entriesBack[1]? = some ⟨2, "ITEM 2".data, .int 5, true, .EXACT⟩ ∧
      ((∀ it q pv,
        Issue.nonSequential it q pv ∈
          (⟨2, .int 5, true, .EXACT, "ITEM 2".data,
            [.nonSequential 2 5 10]⟩ : ValRecord).issues ↔
        ((true : Bool) = true ∧ it = 2 ∧ (PageVal.int 5 : PageVal) = .int q ∧
          pv = prevTrack 0 (entriesBack.take 1) ∧ q < prevTrack 0 (entriesBack.take 1))) ∧
      (∀ d, Issue.largeGap d ∈
          (⟨2, .int 5, true, .EXACT, "ITEM 2".data,
            [.nonSequential 2 5 10]⟩ : ValRecord).issues ↔
        ((true : Bool) = true ∧ ∃ q, (PageVal.int 5 : PageVal) = .int q ∧
          d = q - prevTrack 0 (entriesBack.take 1) ∧
          prevTrack 0 (entriesBack.take 1) > 0 ∧ q - prevTrack 0 (entriesBack.take 1) > 20)) ∧
      prevTrack 0 (entriesBack.take 2) =
        prevUpd (prevTrack 0 (entriesBack.take 1)) ⟨2, "ITEM 2".data, .int 5, true, .EXACT⟩) := by
  refine ⟨rfl, by decide, ?_⟩
  exact claim6_page_validation entriesBack
    [⟨1, .int 10, true, .EXACT, "ITEM 1".data, []⟩,
      ⟨2, .int 5, true, .EXACT, "ITEM 2".data, [.nonSequential 2 5 10]⟩]
    1 ⟨2, "ITEM 2".data, .int 5, true, .EXACT⟩
    ⟨2, .int 5, true, .EXACT, "ITEM 2".data, [.nonSequential 2 5 10]⟩
    rfl (by decide) (by decide)

/-- Claim C7: on any Section Map whose found entries carry integer pages
the validator never fails and returns one record per entry; a record
carries the missing-critical issue for its item exactly when the entry
is not found and the item is in the default critical set
{1,...,7,21,22,23}. -/
theorem claim7_validator :
    ∀ (entries : List SectionEntry),
      (∀ e ∈ entries, e.found = true → ∃ p, e.page = .int p) →
      ∃ out, validateSections entries = .ok out ∧ out.length = entries.length ∧
        ∀ (i : Nat) (e : SectionEntry) (r : ValRecord), entries[i]? = some e → out[i]? = some r →
          r.item = e.item ∧
          (∀ it, Issue.missingCritical it ∈ r.issues ↔
            (e.found = false ∧ it = e.item ∧ e.item ∈ criticalItems)) := by
  intro entries hwt
  obtain ⟨out, hok, hlen⟩ := validateGo_total entries 0 hwt
  refine ⟨out, hok, hlen, ?_⟩
  intro i e r he hr
  have hspec := validateGo_spec entries 0 out hok i e r he hr
  refine ⟨hspec.1.1, ?_⟩
  intro it
  by_cases hf : e.found = true
  · rw [if_pos hf] at hspec
    obtain ⟨p, _, hiss⟩ := hspec.2
    rw [hiss]
    constructor
    · intro hm
      exact absurd hm (mem_issuesFound_noCrit e.item e.text p _ it)
    · rintro ⟨hff, _⟩
      rw [hf] at hff
      cases hff
  · rw [if_neg hf] at hspec
    rw [hspec.2, mem_issuesMissing_crit]
    have hff : e.found = false := by simpa using hf
    constructor
    · rintro ⟨hit, hcrit⟩
      exact ⟨hff, hit, hcrit⟩
    · rintro ⟨_, hit, hcrit⟩
      exact ⟨hit, hcrit⟩

/-- Witness for C7: the all-MISSING map validates successfully with 23
records; by the theorem, e.g. item 19 (not critical) gets no
missing-critical issue while item 21 (critical) gets one. -/
theorem claim7_validator_witness :
    (∀ e ∈ emptyDocMap, e.found = false) ∧
      (∃ out, validateSections emptyDocMap = .ok out ∧ out.length = emptyDocMap.length ∧
        ∀ (i : Nat) (e : SectionEntry) (r : ValRecord),
          emptyDocMap[i]? = some e → out[i]? = some r →
          r.item = e.item ∧
          (∀ it, Issue.missingCritical it ∈ r.issues ↔
            (e.found = false ∧ it = e.item ∧ e.item ∈ criticalItems))) :=
  ⟨by decide,
    claim7_validator emptyDocMap (by
      intro e he hf
      have h0 : e.found = false := (by decide : ∀ e ∈ emptyDocMap, e.found = false) e he
      rw [h0] at hf
      cases hf)⟩

/-- Counterexample for C8: a section header whose `prov` key holds an
empty list makes `analyze_fdd_sections` raise `IndexError` (the whole
analysis aborts rather than defaulting and continuing), and the
sequencer drops a fragment with no `prov` key instead of processing it
with defaulted coordinates (page 0 is in the range `[0, ∞)`, yet the
output is empty). -/
theorem claim8_counterexample :
    analyzeFddSections docEmptyProv = .error () ∧
      getSortedTexts ⟨[fragNoProv]⟩ 0 none = [] := by
  constructor
  · rfl
  · decide

/-- Claim C8 (amended): a fragment with a present provenance record but
missing `page_no`/`top`/`left` is processed with all coordinates
defaulted to zero and the sequencer completes, while a fragment with an
absent or empty `prov` list is dropped by the sequencer (not processed
with defaults). -/
theorem claim8_amended :
    ∀ (t t2 : TextItem) (rest : List ProvRec) (s : Int) (e : Option Int),
      t.prov = some (⟨none, none⟩ :: rest) →
      inPageRange s e 0 = true →
      (t2.prov = none ∨ t2.prov = some []) →
      getSortedTexts ⟨[t]⟩ s e = [⟨t.text.getD [], 0, 0, 0, t.self_ref.getD []⟩] ∧
      getSortedTexts ⟨[t2]⟩ s e = [] := by
  intro t t2 rest s e hp hr h2
  constructor
  · unfold getSortedTexts
    simp [List.filterMap, fragToPageText, hp, hr, List.insertionSort]
  · rcases h2 with h2 | h2 <;>
      simp [getSortedTexts, List.filterMap, fragToPageText, h2]

/-- Witness for the amended C8 at concrete fragments. -/
theorem claim8_amended_witness :
    fragDefaulted.prov = some (⟨none, none⟩ :: []) ∧
      inPageRange 0 none 0 = true ∧
      (fragNoProv.prov = none ∨ fragNoProv.prov = some []) ∧
      (getSortedTexts ⟨[fragDefaulted]⟩ 0 none =
          [⟨fragDefaulted.text.getD [], 0, 0, 0, fragDefaulted.self_ref.getD []⟩] ∧
        getSortedTexts ⟨[fragNoProv]⟩ 0 none = []) :=
  ⟨rfl, rfl, Or.inl rfl,
    claim8_amended fragDefaulted fragNoProv [] 0 none rfl rfl (Or.inl rfl)⟩

/-- Claim C9: the analysis and the validation are pure functions of the
document and Section Map — two runs on the same input produce identical
results. -/
theorem claim9_determinism :
    ∀ (doc : Document) (sm : List SectionEntry),
      analyzeFddSections doc = analyzeFddSections doc ∧
        validateSections sm = validateSections sm :=
  fun _ _ => ⟨rfl, rfl⟩

/-- Claim C10: when no header candidate passes either check for item n,
the emitted entry is exactly `(n, "NOT FOUND", 0, False, "MISSING")` —
literal sentinel text and integer page 0 — and any successful validation
of that map reports page 0 for that item. -/
theorem claim10_missing_sentinel :
    ∀ (doc : Document) (sm : List SectionEntry) (n : Nat),
      analyzeFddSections doc = .ok sm → 1 ≤ n → n ≤ 23 →
      (∀ h ∈ collectHeaders doc.texts,
        itemExactMatch n h.text = false ∧ fuzzyMatchHeader h.text n = false) →
      sm[n - 1]? = some ⟨n, "NOT FOUND".data, .int 0, false, .MISSING⟩ ∧
      ∀ out, validateSections sm = .ok out →
        ∃ r, out[n - 1]? = some r ∧ r.page = .int 0 ∧ r.item = n := by
  intro doc sm n hok h1 h23 hnone
  have hsm := analyze_ok_elim hok
  have hidx : sm[n - 1]? = some (scanHeaders n (collectHeaders doc.texts)) := by
    subst hsm
    rw [List.getElem?_map]
    have hrg : (List.range' 1 23)[n - 1]? = some n := by
      rw [List.getElem?_eq_getElem (by simp; omega)]
      simp [List.getElem_range']
      omega
    rw [hrg]
    rfl
  have hmiss := scanHeaders_missing n _ hnone
  have hsm_some : sm[n - 1]? = some (missingEntry n) := by rw [hidx, hmiss]
  constructor
  · rw [hsm_some]
    rfl
  · intro out hval
    have hlen := validateGo_ok_length sm 0 out hval
    obtain ⟨hlt, _⟩ := List.getElem?_eq_some_iff.mp hsm_some
    have hout_lt : n - 1 < out.length := by rw [hlen]; exact hlt
    refine ⟨_, List.getElem?_eq_getElem hout_lt, ?_, ?_⟩
    · have hspec := validateGo_spec sm 0 out hval (n - 1) (missingEntry n) _
        hsm_some (List.getElem?_eq_getElem hout_lt)
      rw [hspec.1.2.1]
      rfl
    · have hspec := validateGo_spec sm 0 out hval (n - 1) (missingEntry n) _
        hsm_some (List.getElem?_eq_getElem hout_lt)
      rw [hspec.1.1]
      rfl

/-- Witness for C10: with no headers at all, item 19 is the MISSING
sentinel and its validation record reports page 0. -/
theorem claim10_missing_sentinel_witness :
    analyzeFddSections docNoTexts = .ok emptyDocMap ∧ 1 ≤ 19 ∧ 19 ≤ 23 ∧
      (∀ h ∈ collectHeaders docNoTexts.texts,
        itemExactMatch 19 h.text = false ∧ fuzzyMatchHeader h.text 19 = false) ∧
      (emptyDocMap[19 - 1]? = some ⟨19, "NOT FOUND".data, .int 0, false, .MISSING⟩ ∧
        ∀ out, validateSections emptyDocMap = .ok out →
          ∃ r, out[19 - 1]? = some r ∧ r.page = .int 0 ∧ r.item = 19) :=
  ⟨rfl, by decide, by decide, by decide,
    claim10_missing_sentinel docNoTexts emptyDocMap 19 rfl (by decide) (by decide) (by decide)⟩
